import Mathlib

/-!
Verification of the Reciptro-AI rule-based text-understanding core.

This file gives a shallow embedding, in Lean 4, of the two rule-matching
modules of the repository:

* `interpret/interpret.py` — `IntentParser.__init__`, `IntentParser.extract_intent`
  and `IntentParser.generate_response`;
* `extract/extract.py` — `DocumentExtractor.__init__` (the field-pattern table),
  `DocumentExtractor.extract_structured_fields` and
  `DocumentExtractor._clean_extracted_fields`.

Texts are modelled as `List Char`.  Python string primitives (`str.lower`,
`str.strip`, `str.split`, `str.title`, `str.capitalize`, `str.zfill`,
`join`) are modelled by executable Lean functions over `List Char`,
restricted to their ASCII behaviour (the rule tables of the program are pure
ASCII).  Python's `re.search` on the un-interpreted table patterns is modelled as an
abstract search function returning the first capturing group of the match; the
small fixed regexes used internally by `_clean_extracted_fields`
(the date-triple search `(\d\x7b1,2\x7d)[sep](\d\x7b1,2\x7d)[sep](\d\x7b2,4\x7d)` with `[sep]`
a dash or a slash, the noise-strip `[|@#$%^&*]`, the non-digit strip `[^\d]`
and the whitespace collapse `\s+`) are implemented concretely, following
Python's leftmost, greedy-with-backtracking match discipline.
-/

/-! ## Python character primitives (ASCII model) -/

/-- The Python whitespace characters recognised by `str.strip` / `str.split` /
`\s` (ASCII part): space, tab, newline, carriage return, vertical tab, form feed. -/
def isPySpace (c : Char) : Bool :=
  c == ' ' || c == '\t' || c == '\n' || c == '\r' || c == '\x0b' || c == '\x0c'

/-- ASCII model of the case-lowering used by Python `str.lower`.
This is exactly core `Char.toLower`. -/
def lowerChar (c : Char) : Char := Char.toLower c

/-- ASCII model of the case-raising used by Python `str.upper` /
the first character of `str.capitalize`.  This is exactly core `Char.toUpper`. -/
def upperChar (c : Char) : Char := Char.toUpper c

theorem char_toNat_ofNat {n : Nat} (h : n < 55296) : (Char.ofNat n).toNat = n := by
  have hv : n.isValidChar := Or.inl h
  simp only [Char.ofNat, dif_pos hv]
  simp [Char.ofNatAux, Char.toNat, UInt32.toNat]

/-- Lowering a character twice is the same as lowering it once. -/
theorem lowerChar_lowerChar (c : Char) : lowerChar (lowerChar c) = lowerChar c := by
  unfold lowerChar Char.toLower
  by_cases h : c.toNat ≥ 65 ∧ c.toNat ≤ 90
  · simp only [if_pos h]
    have h2 : (Char.ofNat (c.toNat + 32)).toNat = c.toNat + 32 :=
      char_toNat_ofNat (by omega)
    have hcond : ¬((Char.ofNat (c.toNat + 32)).toNat ≥ 65 ∧
        (Char.ofNat (c.toNat + 32)).toNat ≤ 90) := by
      rw [h2]; omega
    rw [if_neg hcond]
  · simp only [if_neg h]

/-! ## Python string primitives over `List Char` -/

/-- Python `s.lower()` (ASCII model): lower every character. -/
def pyLower (s : List Char) : List Char := s.map lowerChar

/-- Python `s.strip()`: drop leading and trailing whitespace. -/
def pyStrip (s : List Char) : List Char :=
  ((s.dropWhile isPySpace).reverse.dropWhile isPySpace).reverse

theorem mem_of_mem_dropWhile {p : Char → Bool} {l : List Char} {c : Char}
    (h : c ∈ l.dropWhile p) : c ∈ l :=
  (List.dropWhile_sublist p).subset h

theorem mem_of_mem_pyStrip {l : List Char} {c : Char} (h : c ∈ pyStrip l) : c ∈ l := by
  unfold pyStrip at h
  rw [List.mem_reverse] at h
  have h2 := mem_of_mem_dropWhile h
  rw [List.mem_reverse] at h2
  exact mem_of_mem_dropWhile h2

theorem mem_of_getLast?_eq_some {l : List Char} {c : Char}
    (h : l.getLast? = some c) : c ∈ l := by
  rw [← List.head?_reverse] at h
  rw [← List.mem_reverse]
  cases hr : l.reverse with
  | nil => rw [hr] at h; simp at h
  | cons a as =>
    rw [hr] at h
    simp at h
    subst h
    exact List.mem_cons_self _ _

theorem dropWhile_head?_false {p : Char → Bool} :
    ∀ {l : List Char} {c : Char}, (l.dropWhile p).head? = some c → p c = false := by
  intro l
  induction l with
  | nil => intro c h; simp at h
  | cons a as ih =>
    intro c h
    rw [List.dropWhile_cons] at h
    by_cases hp : p a = true
    · rw [if_pos hp] at h; exact ih h
    · rw [if_neg hp] at h
      simp at h
      subst h
      simpa using hp

theorem dropWhile_eq_self_of_head? {p : Char → Bool} {l : List Char}
    (h : ∀ c, l.head? = some c → p c = false) : l.dropWhile p = l := by
  cases l with
  | nil => rfl
  | cons a as =>
    rw [List.dropWhile_cons, if_neg]
    simp [h a rfl]

/-- A list is fixed by `pyStrip` as soon as neither end is whitespace. -/
theorem pyStrip_eq_self {l : List Char}
    (h1 : ∀ c, l.head? = some c → isPySpace c = false)
    (h2 : ∀ c, l.getLast? = some c → isPySpace c = false) : pyStrip l = l := by
  unfold pyStrip
  rw [dropWhile_eq_self_of_head? h1]
  rw [dropWhile_eq_self_of_head? (by intro c hc; rw [List.head?_reverse] at hc; exact h2 c hc)]
  exact List.reverse_reverse l

/-- A list with no whitespace at all is fixed by `pyStrip`. -/
theorem pyStrip_eq_self_of_no_space {l : List Char}
    (h : ∀ c ∈ l, isPySpace c = false) : pyStrip l = l :=
  pyStrip_eq_self
    (fun c hc => h c (by
      cases l with
      | nil => simp at hc
      | cons a as =>
        simp at hc
        subst hc
        exact List.mem_cons_self _ _))
    (fun c hc => h c (mem_of_getLast?_eq_some hc))

theorem pyStrip_head?_false {l : List Char} {c : Char}
    (h : (pyStrip l).head? = some c) : isPySpace c = false := by
  unfold pyStrip at h
  rw [List.head?_reverse] at h
  rcases List.dropWhile_suffix (l := (l.dropWhile isPySpace).reverse) (p := isPySpace)
    with ⟨t, ht⟩
  have h2 : ((l.dropWhile isPySpace).reverse).getLast? = some c := by
    rw [← ht, List.getLast?_append, h]
    rfl
  rw [List.getLast?_reverse] at h2
  exact dropWhile_head?_false h2

theorem pyStrip_getLast?_false {l : List Char} {c : Char}
    (h : (pyStrip l).getLast? = some c) : isPySpace c = false := by
  unfold pyStrip at h
  rw [List.getLast?_reverse] at h
  exact dropWhile_head?_false h

/-- `pyStrip` is idempotent. -/
theorem pyStrip_pyStrip (l : List Char) : pyStrip (pyStrip l) = pyStrip l :=
  pyStrip_eq_self (fun _ h => pyStrip_head?_false h) (fun _ h => pyStrip_getLast?_false h)

/-- Model of `re.sub(r'\s+', ' ', v)`: every maximal run of whitespace is
replaced by a single space.  The boolean argument records whether the
previous character belonged to a whitespace run. -/
def collapseWSAux : Bool → List Char → List Char
  | _, [] => []
  | prevSpace, c :: cs =>
    if isPySpace c then
      if prevSpace then collapseWSAux true cs else ' ' :: collapseWSAux true cs
    else c :: collapseWSAux false cs

def collapseWS (v : List Char) : List Char := collapseWSAux false v

/-- Model of Python `value.split()` (no separator): split on whitespace runs,
dropping empty words.  The accumulator holds the current word, reversed. -/
def pyWordsAux : List Char → List Char → List (List Char)
  | acc, [] => if acc = [] then [] else [acc.reverse]
  | acc, c :: cs =>
    if isPySpace c then
      if acc = [] then pyWordsAux [] cs else acc.reverse :: pyWordsAux [] cs
    else pyWordsAux (c :: acc) cs

def pyWords (v : List Char) : List (List Char) := pyWordsAux [] v

/-- Model of Python `' '.join(words)`. -/
def joinWords : List (List Char) → List Char
  | [] => []
  | [w] => w
  | w :: ws => w ++ ' ' :: joinWords ws

/-- Model of Python `word.capitalize()`: upper-case the first character,
lower-case the rest. -/
def pyCapitalize : List Char → List Char
  | [] => []
  | c :: cs => upperChar c :: cs.map lowerChar

/-- Model of Python `value.title()` (ASCII): a letter that follows a letter is
lowered, a letter that follows a non-letter is raised; other characters are
kept and end the current word. -/
def pyTitleAux : Bool → List Char → List Char
  | _, [] => []
  | prevAlpha, c :: cs =>
    if c.isAlpha then
      (if prevAlpha then lowerChar c else upperChar c) :: pyTitleAux true cs
    else c :: pyTitleAux false cs

def pyTitle (v : List Char) : List Char := pyTitleAux false v

/-- The OCR noise characters removed by `re.sub(r'[|@#$%^&*]', '', value)` in
`_clean_extracted_fields`. -/
def isNoiseChar (c : Char) : Bool :=
  c == '|' || c == '@' || c == '#' || c == '$' || c == '%' || c == '^' ||
  c == '&' || c == '*'

def noiseStrip (v : List Char) : List Char := v.filter (fun c => !isNoiseChar c)

/-- ASCII digit test, the `\d` class of the internal regexes. -/
def pyIsDigit (c : Char) : Bool := 48 ≤ c.toNat && c.toNat ≤ 57

/-- Model of `re.sub(r'[^\d]', '', value)`: keep only the digits. -/
def digitsOf (v : List Char) : List Char := v.filter pyIsDigit

/-- Model of Python `s.zfill(2)`: left-pad with `'0'` to length 2. -/
def pyZfill2 (s : List Char) : List Char := List.replicate (2 - s.length) '0' ++ s

/-- Numeric value of a digit string, as computed by Python `int(s)`
(for pure digit strings). -/
def digitsToNat (s : List Char) : Nat := s.foldl (fun a c => a * 10 + (c.toNat - 48)) 0

/-! ## The date-triple regex of `_clean_extracted_fields`

`re.search(r'(\d\x7b1,2\x7d)[sep](\d\x7b1,2\x7d)[sep](\d\x7b2,4\x7d)', value)` with `[sep]` a
dash or a slash: scan for the leftmost start position where a triple begins;
at a fixed start position the quantifiers are greedy with backtracking
(month and day try two digits before one, the year tries four, then three,
then two). -/

/-- Match exactly `n` digit characters, returning them and the rest. -/
def matchDigits : Nat → List Char → Option (List Char × List Char)
  | 0, rest => some ([], rest)
  | _ + 1, [] => none
  | n + 1, c :: rest =>
    if pyIsDigit c then (matchDigits n rest).map (fun p => (c :: p.1, p.2)) else none

/-- Match one date separator (dash or slash). -/
def matchSep : List Char → Option (List Char)
  | [] => none
  | c :: rest => if c = '-' || c = '/' then some rest else none

/-- Greedy year: four digits, else three, else two. -/
def matchYear (l : List Char) : Option (List Char) :=
  match matchDigits 4 l with
  | some p => some p.1
  | none =>
    match matchDigits 3 l with
    | some p => some p.1
    | none => (matchDigits 2 l).map (fun p => p.1)

/-- Day of length `n`, then a separator, then the year. -/
def matchDayYear (n : Nat) (l : List Char) : Option (List Char × List Char) := do
  let p ← matchDigits n l
  let r ← matchSep p.2
  let y ← matchYear r
  pure (p.1, y)

/-- Month of length `n`, then a separator, then day and year
(day greedily tries two digits before one). -/
def matchMonthDayYear (n : Nat) (l : List Char) :
    Option (List Char × List Char × List Char) := do
  let p ← matchDigits n l
  let r ← matchSep p.2
  let dy ← (matchDayYear 2 r).orElse (fun _ => matchDayYear 1 r)
  pure (p.1, dy.1, dy.2)

/-- A full triple match anchored at the current position
(month greedily tries two digits before one). -/
def matchTripleAt (l : List Char) : Option (List Char × List Char × List Char) :=
  (matchMonthDayYear 2 l).orElse (fun _ => matchMonthDayYear 1 l)

/-- `re.search` for the date triple: leftmost match wins. -/
def dateSearch : List Char → Option (List Char × List Char × List Char)
  | [] => matchTripleAt []
  | l@(_ :: rest) => (matchTripleAt l).orElse (fun _ => dateSearch rest)

/-! ## Python `round(x, 2)` on rationals

Python rounds half to even (banker's rounding).  `pyRoundHalfEven` is that
rounding to an integer; `pyRound2` rounds to two decimal places. -/

def pyRoundHalfEven (q : ℚ) : ℤ :=
  if Int.fract q = 1 / 2 then (if Even ⌊q⌋ then ⌊q⌋ else ⌊q⌋ + 1) else round q

def pyRound2 (q : ℚ) : ℚ := (pyRoundHalfEven (q * 100) : ℚ) / 100

theorem pyRoundHalfEven_nonneg {q : ℚ} (h : 0 ≤ q) : 0 ≤ pyRoundHalfEven q := by
  unfold pyRoundHalfEven
  split_ifs with h1 h2
  · exact Int.floor_nonneg.mpr h
  · have := Int.floor_nonneg.mpr h; omega
  · have h3 : |q - (round q : ℚ)| ≤ 1 / 2 := abs_sub_round q
    have h4 : (round q : ℚ) ≥ q - 1 / 2 := by
      have := abs_le.mp h3
      linarith [this.2]
    by_contra hlt
    push_neg at hlt
    have h5 : round q ≤ -1 := by omega
    have h6 : (round q : ℚ) ≤ -1 := by exact_mod_cast h5
    linarith

theorem pyRoundHalfEven_le {q : ℚ} {n : ℤ} (h : q ≤ n) : pyRoundHalfEven q ≤ n := by
  unfold pyRoundHalfEven
  have hfl : ⌊q⌋ ≤ n := by
    have h0 := Int.floor_le_floor h
    rwa [Int.floor_intCast] at h0
  split_ifs with h1 h2
  · exact hfl
  · -- fract q = 1/2, so q is not an integer, hence ⌊q⌋ < q ≤ n and ⌊q⌋ + 1 ≤ n
    have hq : (⌊q⌋ : ℚ) + 1 / 2 = q := by
      have := Int.fract_add_floor q
      rw [h1] at this
      linarith
    have : (⌊q⌋ : ℚ) < n := by
      have hup : q ≤ (n : ℚ) := h
      linarith
    have : ⌊q⌋ < n := by exact_mod_cast this
    omega
  · have h3 : |q - (round q : ℚ)| ≤ 1 / 2 := abs_sub_round q
    have h4 : (round q : ℚ) ≤ q + 1 / 2 := by
      have := abs_le.mp h3
      linarith [this.1]
    by_contra hlt
    push_neg at hlt
    have h5 : (n : ℚ) + 1 ≤ (round q : ℚ) := by exact_mod_cast Int.lt_iff_add_one_le.mp hlt
    -- fract q ≠ 1/2 means q - ⌊q⌋ ≠ 1/2 — we use only q ≤ n here:
    -- round q ≤ q + 1/2 ≤ n + 1/2 < n + 1 ≤ round q, contradiction
    linarith

theorem pyRound2_nonneg {q : ℚ} (h : 0 ≤ q) : 0 ≤ pyRound2 q := by
  unfold pyRound2
  apply div_nonneg _ (by norm_num)
  exact_mod_cast pyRoundHalfEven_nonneg (by linarith)

theorem pyRound2_le_one {q : ℚ} (h : q ≤ 1) : pyRound2 q ≤ 1 := by
  unfold pyRound2
  rw [div_le_one (by norm_num)]
  have h2 : pyRoundHalfEven (q * 100) ≤ (100 : ℤ) :=
    pyRoundHalfEven_le (by push_cast; linarith)
  exact_mod_cast h2

theorem pyRound2_zero : pyRound2 0 = 0 := by
  unfold pyRound2 pyRoundHalfEven
  norm_num

/-! ## The intent rule table of `IntentParser.__init__`

One `IntentRule` per entry of `self.intent_patterns`, in the declaration
(= dict insertion) order of the source.  Keyword lists and parameter regex
source strings are copied verbatim from `interpret/interpret.py`. -/

structure IntentRule where
  name : String
  keywords : List String
  params : List (String × String)
deriving DecidableEq

def intent_patterns : List IntentRule := [
  ⟨"book_appointment",
   ["book", "appointment", "schedule", "meeting", "reserve"],
   [("date", "(monday|tuesday|wednesday|thursday|friday|saturday|sunday|tomorrow|today|\\d\x7b1,2\x7d(?:st|nd|rd|th)?)"),
    ("time", "(\\d\x7b1,2\x7d(?::\\d\x7b2\x7d)?\\s*(?:am|pm|o\x27clock))"),
    ("service", "(consultation|checkup|meeting|call|session)")]⟩,
  ⟨"get_weather",
   ["weather", "forecast", "temperature", "rain", "sunny", "cloudy"],
   [("location", "in\\s+([a-zA-Z\\s]+)"),
    ("time", "(today|tomorrow|this week|next week)")]⟩,
  ⟨"set_reminder",
   ["remind", "reminder", "alert", "notify"],
   [("task", "to\\s+([^.!?]+)"),
    ("time", "(in\\s+\\d+\\s+(?:minutes?|hours?|days?)|at\\s+\\d\x7b1,2\x7d(?::\\d\x7b2\x7d)?\\s*(?:am|pm))")]⟩,
  ⟨"play_music",
   ["play", "music", "song", "artist", "album"],
   [("song", "play\\s+([^.!?]+)"),
    ("artist", "by\\s+([a-zA-Z\\s]+)")]⟩,
  ⟨"get_directions",
   ["directions", "navigate", "route", "way to", "how to get"],
   [("destination", "to\\s+([^.!?]+)"),
    ("from", "from\\s+([a-zA-Z\\s]+)")]⟩,
  ⟨"general_question",
   ["what", "how", "when", "where", "why", "tell me", "explain"],
   [("topic", "(?:what|how|when|where|why).*?([^.!?]+)")]⟩]

/-- Python `text.lower().strip()`, the normalized view used by
`extract_intent`. -/
def textLower (text : List Char) : List Char := pyStrip (pyLower text)

/-- The keyword score of one intent rule: the number of its keywords that
occur as a substring of the normalized text (Python `keyword in text_lower`). -/
def keywordScore (tl : List Char) (r : IntentRule) : Nat :=
  (r.keywords.filter (fun kw => decide (kw.data <:+: tl))).length

/-- The `intent_scores` dict: one `(name, score)` pair per rule, in table
order. -/
def intentScores (tl : List Char) : List (String × Nat) :=
  intent_patterns.map (fun r => (r.name, keywordScore tl r))

/-- Python `max(iterable, key=f)` keeps the FIRST maximal element: a later
element replaces the current best only when its value is strictly larger. -/
def pyMaxFst : (String × Nat) → List (String × Nat) → (String × Nat)
  | best, [] => best
  | best, x :: xs => pyMaxFst (if x.2 > best.2 then x else best) xs

/-- `max(intent_scores.values())`. -/
def maxIntentScore (tl : List Char) : Nat :=
  ((intentScores tl).map (fun s => s.2)).foldl Nat.max 0

/-- `max(intent_scores, key=intent_scores.get)` together with its score. -/
def bestScored (tl : List Char) : String × Nat :=
  match intentScores tl with
  | [] => ("unknown", 0)
  | s :: ss => pyMaxFst s ss

/-- The earliest-declared intent whose score attains the maximum score
(the deterministic tie-break winner). -/
def firstTopIntent (tl : List Char) : String :=
  (((intentScores tl).find? (fun s => decide (maxIntentScore tl ≤ s.2))).map
    (fun s => s.1)).getD ("unknown")

/-- The result dict of `IntentParser.extract_intent`. -/
structure ClassificationResult where
  intent : String
  parameters : List (String × List Char)
  confidence : ℚ
  original_text : List Char
deriving DecidableEq

/-- Abstract model of `re.search(pattern, text, re.IGNORECASE)` followed by
`match.group(1)`: `none` when the pattern does not match, otherwise the text
captured by the first group.  The parameter patterns of the rule table are
un-interpreted data passed to this function. -/
def SearchFn : Type := String → List Char → Option (List Char)

/-- The `best_intent` chosen by `extract_intent`: the dict-order-first
maximal-score intent if the top score is positive, else `"unknown"`. -/
def bestIntentName (tl : List Char) : String :=
  if maxIntentScore tl > 0 then (bestScored tl).1 else ("unknown")

/-- The parameter map built by `extract_intent` for the chosen intent:
each parameter pattern is searched in declared order; failures are omitted. -/
def intentParams (search : SearchFn) (tl : List Char) : List (String × List Char) :=
  if bestIntentName tl ≠ "unknown" then
    match intent_patterns.find? (fun r => r.name == bestIntentName tl) with
    | some r => r.params.filterMap
        (fun pp => (search pp.2 tl).map (fun g => (pp.1, pyStrip g)))
    | none => []
  else []

/-- The pre-rounding confidence of `extract_intent`:
`intent_scores[best_intent] / len(keywords)` for a known intent, else 0. -/
def intentConfidence (tl : List Char) : ℚ :=
  if bestIntentName tl ≠ "unknown" then
    match intent_patterns.find? (fun r => r.name == bestIntentName tl) with
    | some r => (keywordScore tl r : ℚ) / (r.keywords.length : ℚ)
    | none => 0
  else 0

/-- Shallow embedding of `IntentParser.extract_intent` (interpret.py,
lines 62-103), parameterized by the regex engine `search`. -/
def extract_intent (search : SearchFn) (text : List Char) : ClassificationResult :=
  ⟨bestIntentName (textLower text), intentParams search (textLower text),
   pyRound2 (intentConfidence (textLower text)), text⟩

/-- The generic apology string of the `responses` template table. -/
def unknownResponse : List Char :=
  ("I\x27m not sure how to help with that, but I\x27m here to assist you.").data

/-- The `responses` template table of `generate_response`, one entry per
intent, all interpolated eagerly from the parameter map (Python evaluates
every f-string when the dict literal is built). -/
def responsesTable (params : List (String × List Char)) : List (String × List Char) :=
  let get := fun (k : String) => (List.lookup k params).getD []
  [
    ("book_appointment", ("Okay, I\x27ve booked your appointment").data ++
      (if get ("date") ≠ [] then (" for ").data ++ get ("date") else []) ++
      (if get ("time") ≠ [] then (" at ").data ++ get ("time") else []) ++ (".").data),
    ("get_weather", ("The weather").data ++
      (if get ("location") ≠ [] then (" in ").data ++ get ("location") else []) ++
      (" is looking good today.").data),
    ("set_reminder", ("I\x27ll remind you").data ++
      (if get ("task") ≠ [] then (" to ").data ++ get ("task") else []) ++
      (if get ("time") ≠ [] then (" ").data ++ get ("time") else []) ++ (".").data),
    ("play_music", ("Playing").data ++
      (if get ("song") ≠ [] then (" ").data ++ get ("song") else (" music").data) ++
      (if get ("artist") ≠ [] then (" by ").data ++ get ("artist") else []) ++ (".").data),
    ("get_directions", ("Here are directions").data ++
      (if get ("destination") ≠ [] then (" to ").data ++ get ("destination") else []) ++
      (".").data),
    ("general_question", ("Let me help you with that question.").data),
    ("unknown", unknownResponse)]

/-- Shallow embedding of `IntentParser.generate_response` (interpret.py,
lines 147-170): a pure template lookup with the apology as default. -/
def generate_response (r : ClassificationResult) : List Char :=
  (List.lookup r.intent (responsesTable r.parameters)).getD unknownResponse

/-! ## The field rule table of `DocumentExtractor.__init__`

One `FieldRule` per entry of `self.field_patterns`, in declaration order,
with the pattern cascade of each field in declared order.  Regex source
strings are copied verbatim from `extract/extract.py`. -/

structure FieldRule where
  name : String
  patterns : List String
deriving DecidableEq

def field_patterns : List FieldRule := [
  ⟨"name",
   ["name[:\\s]+([a-zA-Z\\s,]+)",
    "full\\s+name[:\\s]+([a-zA-Z\\s,]+)",
    "^([A-Z][a-zA-Z]+\\s+[A-Z][a-zA-Z]+)"]⟩,
  ⟨"date_of_birth",
   ["(?:date\\s+of\\s+birth|dob|birth\\s+date)[:\\s]+(\\d\x7b1,2\x7d[-/]\\d\x7b1,2\x7d[-/]\\d\x7b2,4\x7d)",
    "born[:\\s]+(\\d\x7b1,2\x7d[-/]\\d\x7b1,2\x7d[-/]\\d\x7b2,4\x7d)",
    "(\\d\x7b1,2\x7d[-/]\\d\x7b1,2\x7d[-/]\\d\x7b4\x7d)"]⟩,
  ⟨"id_number",
   ["(?:id|license|card)\\s*(?:number|no|#)[:\\s]*([A-Z0-9-]+)",
    "(?:number|no|#)[:\\s]*([A-Z0-9-]+)",
    "([A-Z]\x7b1,3\x7d\\d\x7b6,12\x7d)"]⟩,
  ⟨"address",
   ["address[:\\s]+([^\\n]+)",
    "(?:street|addr)[:\\s]+([^\\n]+)",
    "(\\d+\\s+[A-Za-z\\s]+(?:street|st|avenue|ave|road|rd|lane|ln|drive|dr))"]⟩,
  ⟨"phone",
   ["(?:phone|tel|mobile)[:\\s]*([0-9\\-\\(\\)\\s]+)",
    "(\\(\\d\x7b3\x7d\\)\\s*\\d\x7b3\x7d-\\d\x7b4\x7d)",
    "(\\d\x7b3\x7d-\\d\x7b3\x7d-\\d\x7b4\x7d)"]⟩,
  ⟨"email",
   ["(?:email|e-mail)[:\\s]*([a-zA-Z0-9._%+-]+@[a-zA-Z0-9.-]+\\.[a-zA-Z]\x7b2,\x7d)",
    "([a-zA-Z0-9._%+-]+@[a-zA-Z0-9.-]+\\.[a-zA-Z]\x7b2,\x7d)"]⟩,
  ⟨"expiry_date",
   ["(?:expires?|exp|expiry)[:\\s]*(\\d\x7b1,2\x7d[-/]\\d\x7b1,2\x7d[-/]\\d\x7b2,4\x7d)",
    "valid\\s+until[:\\s]*(\\d\x7b1,2\x7d[-/]\\d\x7b1,2\x7d[-/]\\d\x7b2,4\x7d)"]⟩,
  ⟨"issuer",
   ["issued\\s+by[:\\s]*([A-Za-z\\s]+)",
    "(?:state|country|authority)[:\\s]*([A-Za-z\\s]+)"]⟩]

/-- `' '.join(text.split('\n')).lower()`: the normalized single-line
lowercased view used by `extract_structured_fields`. -/
def normalizeFullText (text : List Char) : List Char :=
  pyLower (List.intercalate ([' ']) (List.splitOn '\n' text))

/-- Try the patterns of one field in declared order; return the first
capturing group of the first pattern that matches. -/
def firstPatternMatch (search : SearchFn) (t : List Char) : List String → Option (List Char)
  | [] => none
  | p :: ps =>
    match search p t with
    | some g => some g
    | none => firstPatternMatch search t ps

/-- Post-processing of a raw capture inside the extraction loop:
`match.group(1).strip()`, whitespace collapse, and `value.title()`
for the `name` field only. -/
def fieldPost (fname : String) (g : List Char) : List Char :=
  let v := collapseWS (pyStrip g)
  if fname = "name" then pyTitle v else v

/-- The extraction loop of `extract_structured_fields` (extract.py,
lines 141-156), over an arbitrary rule list. -/
def extractRawFieldsOn (rules : List FieldRule) (search : SearchFn) (t : List Char) :
    List (String × List Char) :=
  rules.filterMap
    (fun fr => (firstPatternMatch search t fr.patterns).map
      (fun g => (fr.name, fieldPost fr.name g)))

/-- The extraction loop over the program's field table. -/
def extractRawFields (search : SearchFn) (t : List Char) : List (String × List Char) :=
  extractRawFieldsOn field_patterns search t

/-- The per-field normalization of `_clean_extracted_fields` (extract.py,
lines 168-190): noise-strip and trim, then the date / phone / name
canonicalization. -/
def cleanFieldValue (key : String) (v0 : List Char) : List Char :=
  let v1 := pyStrip (noiseStrip v0)
  if key = "date_of_birth" || key = "expiry_date" then
    match dateSearch v1 with
    | some (m, d, y) =>
      let y2 := if y.length = 2 then
          (if digitsToNat y < 50 then '2' :: '0' :: y else '1' :: '9' :: y)
        else y
      pyZfill2 m ++ '/' :: pyZfill2 d ++ '/' :: y2
    | none => v1
  else if key = "phone" then
    let ds := digitsOf v1
    if ds.length = 10 then
      '(' :: ds.take 3 ++ ')' :: ' ' :: ((ds.drop 3).take 3 ++ '-' :: ds.drop 6)
    else v1
  else if key = "name" then
    joinWords ((pyWords v1).map pyCapitalize)
  else v1

/-- Shallow embedding of `DocumentExtractor._clean_extracted_fields`
(extract.py, lines 162-195). -/
def clean_extracted_fields (fields : List (String × List Char)) :
    List (String × List Char) :=
  fields.filterMap (fun kv =>
    if kv.2 ≠ [] ∧ 0 < (pyStrip kv.2).length then
      let v2 := cleanFieldValue kv.1 kv.2
      if 2 < v2.length then some (kv.1, v2) else none
    else none)

/-- Shallow embedding of `DocumentExtractor.extract_structured_fields`
(extract.py, lines 128-160). -/
def extract_structured_fields (search : SearchFn) (text : List Char) :
    List (String × List Char) :=
  if text = [] then []
  else clean_extracted_fields (extractRawFields search (normalizeFullText text))

/-! ## A group-aware model of the intent parser, for configuration errors

`SearchGFn` returns the full group list of a match (`none` entries for groups
that did not participate); `match.group(1)` on a pattern without a capturing
group raises `IndexError` in Python, which the embedding surfaces as an
`Except.error` of `extract_intent_g`.  `IntentParser.__init__` itself merely
stores the table: `intentParserInitG` is the identity and performs no
validation. -/

def SearchGFn : Type := String → List Char → Option (List (Option (List Char)))

/-- `IntentParser.__init__` over an arbitrary rule table: the constructor
only assigns `self.intent_patterns`; it contains no duplicate-name check and
no capturing-group check, so construction always succeeds. -/
def intentParserInitG (table : List IntentRule) : List IntentRule := table

/-- The parameter-extraction loop of `extract_intent`, with `match.group(1)`
modelled fallibly: a matching pattern with no group 1 raises. -/
def extractParamsG (search : SearchGFn) (tl : List Char) :
    List (String × String) → Except String (List (String × List Char))
  | [] => .ok []
  | (pn, pat) :: rest =>
    match search pat tl with
    | none => extractParamsG search tl rest
    | some groups =>
      match groups[1]? with
      | none => .error ("IndexError: no such group")
      | some none => .error ("AttributeError: NoneType has no attribute strip")
      | some (some g) =>
        match extractParamsG search tl rest with
        | .ok ps => .ok ((pn, pyStrip g) :: ps)
        | .error e => .error e

/-- `IntentParser.extract_intent` over an arbitrary rule table, with
call-time exceptions made explicit. -/
def extract_intent_g (search : SearchGFn) (table : List IntentRule)
    (text : List Char) : Except String ClassificationResult :=
  let tl := textLower text
  let iscores := table.map (fun r => (r.name, keywordScore tl r))
  match iscores with
  | [] => .error ("ValueError: max() arg is an empty sequence")
  | s :: ss =>
    let mx := ((s :: ss).map (fun x => x.2)).foldl Nat.max 0
    let best_intent := if mx > 0 then (pyMaxFst s ss).1 else ("unknown")
    let paramsE : Except String (List (String × List Char)) :=
      if best_intent ≠ "unknown" then
        match table.find? (fun r => r.name == best_intent) with
        | some r => extractParamsG search tl r.params
        | none => .ok []
      else .ok []
    match paramsE with
    | .error e => .error e
    | .ok parameters =>
      let confidence : ℚ :=
        if best_intent ≠ "unknown" then
          match table.find? (fun r => r.name == best_intent) with
          | some r => (keywordScore tl r : ℚ) / (r.keywords.length : ℚ)
          | none => 0
        else 0
      .ok ⟨best_intent, parameters, pyRound2 confidence, text⟩

/-- A malformed rule table: the parameter pattern `"x"` has no capturing
group. -/
def badRuleTable : List IntentRule := [⟨"alpha", ["x"], [("p", "x")]⟩]

/-- The behaviour of `re.search` on the pattern `"x"`: it matches any text
containing `'x'`; the match has group 0 (the whole match) and no group 1. -/
def badSearch : SearchGFn := fun p t =>
  if p == "x" && t.contains 'x' then some [some ['x']] else none

/-! ## Character-class lemmas -/

theorem toNat_of_isPySpace {c : Char} (h : isPySpace c = true) :
    c.toNat = 32 ∨ c.toNat = 9 ∨ c.toNat = 10 ∨ c.toNat = 13 ∨
    c.toNat = 11 ∨ c.toNat = 12 := by
  simp only [isPySpace, Bool.or_eq_true, beq_iff_eq] at h
  rcases h with ((((h | h) | h) | h) | h) | h <;> subst h <;> decide

theorem isPySpace_false_of_toNat {c : Char}
    (h : ¬(c.toNat = 32 ∨ c.toNat = 9 ∨ c.toNat = 10 ∨ c.toNat = 13 ∨
      c.toNat = 11 ∨ c.toNat = 12)) : isPySpace c = false := by
  cases hx : isPySpace c
  · rfl
  · exact absurd (toNat_of_isPySpace hx) h

theorem toNat_bounds_of_pyIsDigit {c : Char} (h : pyIsDigit c = true) :
    48 ≤ c.toNat ∧ c.toNat ≤ 57 := by
  simpa [pyIsDigit] using h

theorem isPySpace_false_of_pyIsDigit {c : Char} (h : pyIsDigit c = true) :
    isPySpace c = false := by
  have hb := toNat_bounds_of_pyIsDigit h
  exact isPySpace_false_of_toNat (by omega)

theorem toNat_of_isNoiseChar {c : Char} (h : isNoiseChar c = true) :
    c.toNat = 124 ∨ c.toNat = 64 ∨ c.toNat = 35 ∨ c.toNat = 36 ∨
    c.toNat = 37 ∨ c.toNat = 94 ∨ c.toNat = 38 ∨ c.toNat = 42 := by
  simp only [isNoiseChar, Bool.or_eq_true, beq_iff_eq] at h
  rcases h with ((((((h | h) | h) | h) | h) | h) | h) | h <;> subst h <;> decide

theorem isNoiseChar_false_of_pyIsDigit {c : Char} (h : pyIsDigit c = true) :
    isNoiseChar c = false := by
  have hb := toNat_bounds_of_pyIsDigit h
  cases hx : isNoiseChar c
  · rfl
  · exact absurd (toNat_of_isNoiseChar hx) (by omega)

theorem isPySpace_upperChar {c : Char} (h : isPySpace c = false) :
    isPySpace (upperChar c) = false := by
  by_cases hr : c.toNat ≥ 97 ∧ c.toNat ≤ 122
  · have htn : (upperChar c).toNat = c.toNat - 32 := by
      unfold upperChar Char.toUpper
      rw [if_pos hr]
      exact char_toNat_ofNat (by omega)
    exact isPySpace_false_of_toNat (by rw [htn]; omega)
  · have htn : upperChar c = c := by
      unfold upperChar Char.toUpper
      rw [if_neg hr]
    rw [htn]
    exact h

theorem isPySpace_lowerChar {c : Char} (h : isPySpace c = false) :
    isPySpace (lowerChar c) = false := by
  by_cases hr : c.toNat ≥ 65 ∧ c.toNat ≤ 90
  · have htn : (lowerChar c).toNat = c.toNat + 32 := by
      unfold lowerChar Char.toLower
      rw [if_pos hr]
      exact char_toNat_ofNat (by omega)
    exact isPySpace_false_of_toNat (by rw [htn]; omega)
  · have htn : lowerChar c = c := by
      unfold lowerChar Char.toLower
      rw [if_neg hr]
    rw [htn]
    exact h

/-! ## Lemmas about `pyMaxFst` (Python `max(..., key=...)`) -/

theorem pyMaxFst_snd : ∀ (xs : List (String × Nat)) (b : String × Nat),
    (pyMaxFst b xs).2 = (xs.map (fun x => x.2)).foldl Nat.max b.2 := by
  intro xs
  induction xs with
  | nil => intro b; rfl
  | cons x xs ih =>
    intro b
    show (pyMaxFst (if x.2 > b.2 then x else b) xs).2 = _
    rw [ih, List.map_cons, List.foldl_cons]
    have h2 : (if x.2 > b.2 then x else b).2 = Nat.max b.2 x.2 := by
      by_cases hx : x.2 > b.2
      · rw [if_pos hx]
        exact (Nat.max_eq_right (Nat.le_of_lt hx)).symm
      · rw [if_neg hx]
        exact (Nat.max_eq_left (Nat.le_of_not_lt hx)).symm
    rw [h2]

theorem pyMaxFst_mem : ∀ (xs : List (String × Nat)) (b : String × Nat),
    pyMaxFst b xs ∈ b :: xs := by
  intro xs
  induction xs with
  | nil => intro b; exact List.mem_cons_self _ _
  | cons x xs ih =>
    intro b
    show pyMaxFst (if x.2 > b.2 then x else b) xs ∈ b :: x :: xs
    have hb := ih (if x.2 > b.2 then x else b)
    rcases List.mem_cons.mp hb with h | h
    · rw [h]
      split_ifs
      · exact List.mem_cons_of_mem _ (List.mem_cons_self _ _)
      · exact List.mem_cons_self _ _
    · exact List.mem_cons_of_mem _ (List.mem_cons_of_mem _ h)

theorem pyMaxFst_ub : ∀ (xs : List (String × Nat)) (b : String × Nat),
    ∀ y ∈ b :: xs, y.2 ≤ (pyMaxFst b xs).2 := by
  intro xs
  induction xs with
  | nil =>
    intro b y hy
    rcases List.mem_cons.mp hy with h | h
    · rw [h]; exact Nat.le_refl _
    · simp at h
  | cons x xs ih =>
    intro b y hy
    show y.2 ≤ (pyMaxFst (if x.2 > b.2 then x else b) xs).2
    have hble : b.2 ≤ (if x.2 > b.2 then x else b).2 := by
      split_ifs with hx
      · omega
      · omega
    have hxle : x.2 ≤ (if x.2 > b.2 then x else b).2 := by
      split_ifs with hx
      · omega
      · omega
    have hself : ((if x.2 > b.2 then x else b)).2 ≤
        (pyMaxFst (if x.2 > b.2 then x else b) xs).2 :=
      ih _ _ (List.mem_cons_self _ _)
    rcases List.mem_cons.mp hy with h | h
    · rw [h]; omega
    · rcases List.mem_cons.mp h with h2 | h2
      · rw [h2]; omega
      · exact ih _ _ (List.mem_cons_of_mem _ h2)

theorem pyMaxFst_find? : ∀ (xs : List (String × Nat)) (b : String × Nat),
    List.find? (fun y => decide ((pyMaxFst b xs).2 ≤ y.2)) (b :: xs) =
      some (pyMaxFst b xs) := by
  intro xs
  induction xs with
  | nil =>
    intro b
    show List.find? _ [b] = some b
    rw [List.find?_cons_of_pos _ (by simp [pyMaxFst])]
  | cons x xs ih =>
    intro b
    show List.find? (fun y => decide ((pyMaxFst (if x.2 > b.2 then x else b) xs).2 ≤ y.2))
      (b :: x :: xs) = some (pyMaxFst (if x.2 > b.2 then x else b) xs)
    by_cases hx : x.2 > b.2
    · rw [if_pos hx]
      have hxle : x.2 ≤ (pyMaxFst x xs).2 := pyMaxFst_ub xs x x (List.mem_cons_self _ _)
      rw [List.find?_cons_of_neg _ (by simp; omega)]
      exact ih x
    · rw [if_neg hx]
      have ihb := ih b
      by_cases hpb : (pyMaxFst b xs).2 ≤ b.2
      · have hres : pyMaxFst b xs = b := by
          have h1 : List.find? (fun y => decide ((pyMaxFst b xs).2 ≤ y.2)) (b :: xs) =
              some b := List.find?_cons_of_pos _ (by simpa using hpb)
          have h2 := ihb.symm.trans h1
          exact (Option.some.injEq _ _).mp h2
        rw [List.find?_cons_of_pos _ (by simpa using hpb)]
        rw [hres]
      · rw [List.find?_cons_of_neg _ (by simpa using hpb)]
        have hxb : ¬((pyMaxFst b xs).2 ≤ x.2) := by omega
        rw [List.find?_cons_of_neg _ (by simpa using hxb)]
        have h3 := ihb
        rw [List.find?_cons_of_neg _ (by simpa using hpb)] at h3
        exact h3

theorem foldl_max_eq_zero : ∀ {l : List Nat}, (∀ x ∈ l, x = 0) → l.foldl Nat.max 0 = 0 := by
  intro l
  induction l with
  | nil => intro _; rfl
  | cons x xs ih =>
    intro h
    rw [List.foldl_cons]
    have hx : x = 0 := h x (List.mem_cons_self _ _)
    rw [hx]
    exact ih (fun y hy => h y (List.mem_cons_of_mem _ hy))

theorem maxIntentScore_eq {tl : List Char} {s : String × Nat} {ss : List (String × Nat)}
    (h : intentScores tl = s :: ss) : maxIntentScore tl = (pyMaxFst s ss).2 := by
  unfold maxIntentScore
  rw [h, List.map_cons, List.foldl_cons]
  have hz : Nat.max 0 s.2 = s.2 := Nat.max_eq_right (Nat.zero_le _)
  rw [hz, pyMaxFst_snd]

/-! ## Projection lemmas for `extract_intent` and decidable table facts -/

theorem extract_intent_intent_def (search : SearchFn) (text : List Char) :
    (extract_intent search text).intent = bestIntentName (textLower text) := by
  simp only [extract_intent]

theorem extract_intent_confidence_def (search : SearchFn) (text : List Char) :
    (extract_intent search text).confidence =
      pyRound2 (intentConfidence (textLower text)) := by
  simp only [extract_intent]

theorem extract_intent_parameters_def (search : SearchFn) (text : List Char) :
    (extract_intent search text).parameters = intentParams search (textLower text) := by
  simp only [extract_intent]

theorem extract_intent_original_def (search : SearchFn) (text : List Char) :
    (extract_intent search text).original_text = text := by
  simp only [extract_intent]

theorem intent_names_nodup : (intent_patterns.map (fun r => r.name)).Nodup := by decide

theorem intent_names_ne_unknown : ∀ r ∈ intent_patterns, r.name ≠ "unknown" := by decide

theorem intent_keywords_pos : ∀ r ∈ intent_patterns, 0 < r.keywords.length := by decide

/-- A `find?` by rule name returns exactly the given table member when rule
names are distinct. -/
theorem find?_name_eq : ∀ {rules : List IntentRule},
    (rules.map (fun r => r.name)).Nodup → ∀ {r0 : IntentRule}, r0 ∈ rules →
    rules.find? (fun r => r.name == r0.name) = some r0 := by
  intro rules
  induction rules with
  | nil => intro _ r0 hr0; simp at hr0
  | cons r rs ih =>
    intro hnd r0 hr0
    have hnd' : (r.name ∉ rs.map (fun x => x.name)) ∧
        (rs.map (fun x => x.name)).Nodup := by
      rw [List.map_cons, List.nodup_cons] at hnd
      exact hnd
    rcases List.mem_cons.mp hr0 with h | h
    · subst h
      exact List.find?_cons_of_pos _ (by simp)
    · by_cases heq : r.name = r0.name
      · exfalso
        exact hnd'.1 (by rw [heq]; exact List.mem_map.mpr ⟨r0, h, rfl⟩)
      · rw [List.find?_cons_of_neg _ (by simpa using heq)]
        exact ih hnd'.2 h

def searchNone : SearchFn := fun _ _ => none

/-- C1: for every input text, if two or more intent rules attain the equal
highest nonzero keyword score, `classify` returns the intent of the rule
declared earliest in the rule table's declaration order (`firstTopIntent`
is, by definition, the earliest-declared rule attaining the maximal score). -/
theorem classify_tie_break_first_declared (search : SearchFn) (text : List Char)
    (i j : Fin (intentScores (textLower text)).length)
    (hij : (i : Nat) < (j : Nat))
    (hi : ((intentScores (textLower text)).get i).2 = maxIntentScore (textLower text))
    (hj : ((intentScores (textLower text)).get j).2 = maxIntentScore (textLower text))
    (hpos : 0 < maxIntentScore (textLower text)) :
    (extract_intent search text).intent = firstTopIntent (textLower text) := by
  rw [extract_intent_intent_def]
  unfold bestIntentName
  rw [if_pos hpos]
  cases hsc : intentScores (textLower text) with
  | nil =>
    exfalso
    have h0 : maxIntentScore (textLower text) = 0 := by
      unfold maxIntentScore
      rw [hsc]
      rfl
    omega
  | cons s ss =>
    have hmax := maxIntentScore_eq hsc
    unfold bestScored firstTopIntent
    rw [hsc, hmax, pyMaxFst_find?]
    simp

/-- Witness for C1: `"book weather"` scores 1 for both `book_appointment`
(rule 0) and `get_weather` (rule 1); the earlier-declared `book_appointment`
wins. -/
theorem classify_tie_break_first_declared_witness :
    (extract_intent searchNone (("book weather").data)).intent = "book_appointment" := by
  have h := classify_tie_break_first_declared searchNone (("book weather").data)
    ⟨0, (by decide)⟩ ⟨1, (by decide)⟩ (by decide) (by decide) (by decide) (by decide)
  exact h.trans (by decide)

/-- C3: for every input text in which no keyword of any intent rule occurs as
a substring of the lowercased, trimmed text, `classify` returns intent
`"unknown"`, confidence 0, and an empty parameter map (and echoes the
original text). -/
theorem classify_no_keyword_unknown (search : SearchFn) (text : List Char)
    (h : ∀ r ∈ intent_patterns, ∀ kw ∈ r.keywords, ¬(kw.data <:+: textLower text)) :
    extract_intent search text = ⟨"unknown", [], 0, text⟩ := by
  have hscore : ∀ r ∈ intent_patterns, keywordScore (textLower text) r = 0 := by
    intro r hr
    unfold keywordScore
    rw [List.length_eq_zero, List.filter_eq_nil_iff]
    intro kw hkw
    simp only [decide_eq_true_eq]
    exact h r hr kw hkw
  have hmax : maxIntentScore (textLower text) = 0 := by
    unfold maxIntentScore
    apply foldl_max_eq_zero
    intro x hx
    rcases List.mem_map.mp hx with ⟨p, hp, hxp⟩
    unfold intentScores at hp
    rcases List.mem_map.mp hp with ⟨r, hr, hrp⟩
    rw [← hxp, ← hrp]
    exact hscore r hr
  have hbi : bestIntentName (textLower text) = "unknown" := by
    unfold bestIntentName
    rw [hmax]
    simp
  have hp : intentParams search (textLower text) = [] := by
    unfold intentParams
    rw [hbi]
    simp
  have hconf : intentConfidence (textLower text) = 0 := by
    unfold intentConfidence
    rw [hbi]
    simp
  unfold extract_intent
  rw [hbi, hp, hconf, pyRound2_zero]

/-- Witness for C3 at the empty string: `classify("")` is
`(intent "unknown", no parameters, confidence 0)`. -/
theorem classify_no_keyword_unknown_witness :
    extract_intent searchNone (("").data) = ⟨"unknown", [], 0, ("").data⟩ :=
  classify_no_keyword_unknown searchNone (("").data) (by decide)

/-- C4: for every input text the confidence equals the count of the winning
intent's keywords occurring in the lowercased trimmed text divided by that
intent's total keyword count, rounded (Python banker's rounding) to 2 decimal
places; it always lies in the interval from 0 to 1; for the `"unknown"`
intent it is 0. -/
theorem classify_confidence_spec (search : SearchFn) (text : List Char) :
    0 ≤ (extract_intent search text).confidence ∧
    (extract_intent search text).confidence ≤ 1 ∧
    ((extract_intent search text).intent = "unknown" →
      (extract_intent search text).confidence = 0) ∧
    ∀ rule ∈ intent_patterns, rule.name = (extract_intent search text).intent →
      (extract_intent search text).confidence =
        pyRound2 ((keywordScore (textLower text) rule : ℚ) /
          (rule.keywords.length : ℚ)) := by
  rw [extract_intent_confidence_def, extract_intent_intent_def]
  by_cases hc : maxIntentScore (textLower text) > 0
  · have hbi : bestIntentName (textLower text) = (bestScored (textLower text)).1 := by
      unfold bestIntentName
      rw [if_pos hc]
    cases hsc : intentScores (textLower text) with
    | nil =>
      exfalso
      have h0 : maxIntentScore (textLower text) = 0 := by
        unfold maxIntentScore
        rw [hsc]
        rfl
      omega
    | cons s ss =>
      have hbs : bestScored (textLower text) = pyMaxFst s ss := by
        unfold bestScored
        rw [hsc]
      have hmem : pyMaxFst s ss ∈ intentScores (textLower text) := by
        rw [hsc]
        exact pyMaxFst_mem ss s
      unfold intentScores at hmem
      rcases List.mem_map.mp hmem with ⟨r0, hr0, hr0eq⟩
      have hname0 : r0.name = (pyMaxFst s ss).1 := by rw [← hr0eq]
      have hne : (pyMaxFst s ss).1 ≠ "unknown" := by
        rw [← hname0]
        exact intent_names_ne_unknown r0 hr0
      have hbine : bestIntentName (textLower text) ≠ "unknown" := by
        rw [hbi, hbs]
        exact hne
      have hfind : intent_patterns.find?
          (fun r => r.name == bestIntentName (textLower text)) = some r0 := by
        rw [hbi, hbs, ← hname0]
        exact find?_name_eq intent_names_nodup hr0
      have hcv : intentConfidence (textLower text) =
          (keywordScore (textLower text) r0 : ℚ) / (r0.keywords.length : ℚ) := by
        unfold intentConfidence
        rw [if_pos hbine, hfind]
      have hq0 : 0 ≤ (keywordScore (textLower text) r0 : ℚ) /
          (r0.keywords.length : ℚ) :=
        div_nonneg (Nat.cast_nonneg _) (Nat.cast_nonneg _)
      have hlen : 0 < r0.keywords.length := intent_keywords_pos r0 hr0
      have hsle : keywordScore (textLower text) r0 ≤ r0.keywords.length :=
        List.length_filter_le _ _
      have hq1 : (keywordScore (textLower text) r0 : ℚ) /
          (r0.keywords.length : ℚ) ≤ 1 := by
        rw [div_le_one (by exact_mod_cast hlen)]
        exact_mod_cast hsle
      refine ⟨?_, ?_, ?_, ?_⟩
      · rw [hcv]
        exact pyRound2_nonneg hq0
      · rw [hcv]
        exact pyRound2_le_one hq1
      · intro hint
        exact absurd hint hbine
      · intro rule hr hnamerule
        have hrn : rule.name = r0.name := by
          rw [hnamerule, hbi, hbs, hname0]
        have hrr : rule = r0 :=
          List.inj_on_of_nodup_map intent_names_nodup hr hr0 hrn
        rw [hrr, hcv]
  · have hbi : bestIntentName (textLower text) = "unknown" := by
      unfold bestIntentName
      rw [if_neg hc]
    have hconf : intentConfidence (textLower text) = 0 := by
      unfold intentConfidence
      rw [hbi]
      simp
    rw [hconf, pyRound2_zero]
    refine ⟨le_refl 0, by norm_num, fun _ => rfl, ?_⟩
    intro rule hr hnamerule
    rw [hbi] at hnamerule
    exact absurd hnamerule (intent_names_ne_unknown rule hr)

/-- Witness for C4: on `"book a meeting"` the winner is `book_appointment`
with 2 of 5 keywords matched, so the confidence is `round(2/5, 2)`. -/
theorem classify_confidence_spec_witness :
    (extract_intent searchNone (("book a meeting").data)).confidence =
      pyRound2 ((2 : ℚ) / 5) := by
  have h := (classify_confidence_spec searchNone (("book a meeting").data)).2.2.2
    ⟨"book_appointment",
     ["book", "appointment", "schedule", "meeting", "reserve"],
     [("date", "(monday|tuesday|wednesday|thursday|friday|saturday|sunday|tomorrow|today|\\d\x7b1,2\x7d(?:st|nd|rd|th)?)"),
      ("time", "(\\d\x7b1,2\x7d(?::\\d\x7b2\x7d)?\\s*(?:am|pm|o\x27clock))"),
      ("service", "(consultation|checkup|meeting|call|session)")]⟩
    (by decide) (by decide)
  rw [h]
  have h1 : keywordScore (textLower (("book a meeting").data))
      ⟨"book_appointment",
       ["book", "appointment", "schedule", "meeting", "reserve"],
       [("date", "(monday|tuesday|wednesday|thursday|friday|saturday|sunday|tomorrow|today|\\d\x7b1,2\x7d(?:st|nd|rd|th)?)"),
        ("time", "(\\d\x7b1,2\x7d(?::\\d\x7b2\x7d)?\\s*(?:am|pm|o\x27clock))"),
        ("service", "(consultation|checkup|meeting|call|session)")]⟩ = 2 := by decide
  rw [h1]
  norm_num

/-! ## C10 and C9 -/

/-- C10: `original_text` is the input string verbatim — neither trimmed nor
lowercased — while parameter extraction operates on the lowercased trimmed
view, so (for any regex engine whose group-1 capture is a contiguous
substring of the searched text) every extracted parameter value is already
lowercase. -/
theorem classify_original_text_verbatim (search : SearchFn)
    (hs : ∀ p t v, search p t = some v → v <:+: t) (text : List Char) :
    (extract_intent search text).original_text = text ∧
    ∀ kv ∈ (extract_intent search text).parameters, pyLower kv.2 = kv.2 := by
  constructor
  · exact extract_intent_original_def search text
  · intro kv hkv
    rw [extract_intent_parameters_def] at hkv
    unfold intentParams at hkv
    by_cases hbi : bestIntentName (textLower text) ≠ "unknown"
    · rw [if_pos hbi] at hkv
      cases hfind : intent_patterns.find?
          (fun r => r.name == bestIntentName (textLower text)) with
      | none =>
        rw [hfind] at hkv
        simp at hkv
      | some r =>
        rw [hfind] at hkv
        rcases List.mem_filterMap.mp hkv with ⟨pp, hpp, heq⟩
        rcases Option.map_eq_some'.mp heq with ⟨g, hg, hkveq⟩
        have hinf : g <:+: textLower text := hs pp.2 (textLower text) g hg
        rw [← hkveq]
        show pyLower (pyStrip g) = pyStrip g
        have hchar : ∀ c ∈ pyStrip g, lowerChar c = c := by
          intro c hcmem
          have h1 : c ∈ g := mem_of_mem_pyStrip hcmem
          have h2 : c ∈ textLower text := (hinf.sublist).subset h1
          have h3 : c ∈ pyLower text := by
            unfold textLower at h2
            exact mem_of_mem_pyStrip h2
          rcases List.mem_map.mp h3 with ⟨d, _, hd⟩
          rw [← hd]
          exact lowerChar_lowerChar d
        exact (List.map_congr_left hchar).trans (List.map_id _)
    · rw [if_neg hbi] at hkv
      simp at hkv

/-- A stub regex engine whose only capture is the literal `monday` when it
occurs in the searched text — it satisfies the substring condition of C10. -/
def mondayStubSearch : SearchFn := fun _ t =>
  if (("monday").data) <:+: t then some (("monday").data) else none

/-- Witness for C10: the mixed-case input `"Book MONDAY"` is echoed verbatim
in `original_text` even though scoring and extraction used its lowercase
view. -/
theorem classify_original_text_verbatim_witness :
    (extract_intent mondayStubSearch (("Book MONDAY").data)).original_text =
      ("Book MONDAY").data :=
  (classify_original_text_verbatim mondayStubSearch
    (by
      intro p t v h
      unfold mondayStubSearch at h
      split_ifs at h with hc
      cases h
      exact hc)
    (("Book MONDAY").data)).1

/-- The intent names that key the `responses` template table. -/
def responseKeys : List String :=
  ["book_appointment", "get_weather", "set_reminder", "play_music",
   "get_directions", "general_question", "unknown"]

theorem lookup_eq_none_of_not_mem {β : Type} {k : String} :
    ∀ {l : List (String × β)}, (∀ e ∈ l, e.1 ≠ k) → List.lookup k l = none := by
  intro l
  induction l with
  | nil => intro _; rfl
  | cons e es ih =>
    intro h
    rcases e with ⟨n, v⟩
    have hne : (k == n) = false :=
      beq_eq_false_iff_ne.mpr (fun hkn => (h (n, v) (List.mem_cons_self _ _)) hkn.symm)
    simp only [List.lookup, hne]
    exact ih (fun e he => h e (List.mem_cons_of_mem _ he))

/-- C9: `respond` is a total function (this embedding returns a `List Char`
for every `ClassificationResult`, with no failure path), and the `"unknown"`
intent as well as any intent absent from the template table yield the same
single generic apology string. -/
theorem respond_fallback (r : ClassificationResult)
    (h : r.intent = "unknown" ∨ r.intent ∉ responseKeys) :
    generate_response r = unknownResponse := by
  unfold generate_response
  rcases h with h | h
  · rw [h]
    rfl
  · have hln : List.lookup r.intent (responsesTable r.parameters) = none := by
      apply lookup_eq_none_of_not_mem
      intro e he heq
      apply h
      have hkeys : e.1 ∈ responseKeys := by
        have h1 : e.1 ∈ (responsesTable r.parameters).map Prod.fst :=
          List.mem_map_of_mem Prod.fst he
        exact h1
      rw [← heq]
      exact hkeys
    rw [hln]
    rfl

/-- Witness for C9: an intent name absent from the template table falls back
to the generic apology. -/
theorem respond_fallback_witness :
    generate_response ⟨"teleport_me", [], 0, []⟩ = unknownResponse :=
  respond_fallback ⟨"teleport_me", [], 0, []⟩ (Or.inr (by decide))

/-! ## C2: rule-table configuration errors -/

/-- C2 counterexample: on the table whose parameter pattern `"x"` has no
capturing group, construction (`IntentParser.__init__`) succeeds without any
detection, and the configuration error surfaces as an `IndexError` at
`classify` call time on a matching text — contradicting "detected once at
construction ... never at call time". -/
theorem init_no_validation_counterexample :
    intentParserInitG badRuleTable = badRuleTable ∧
    extract_intent_g badSearch badRuleTable (("x").data) =
      .error ("IndexError: no such group") :=
  ⟨rfl, rfl⟩

/-- C2 amended: `IntentParser.__init__` performs no validation of the rule
table — construction is the bare assignment and succeeds for every table,
duplicate names or pattern defects included; a parameter pattern with no
capturing group is not a startup error but raises `IndexError` at `classify`
call time exactly when the pattern matches (a non-matching call still
succeeds). -/
theorem init_no_validation (table : List IntentRule) :
    intentParserInitG table = table ∧
    (∃ res, extract_intent_g badSearch badRuleTable (("y").data) = .ok res) ∧
    extract_intent_g badSearch badRuleTable (("x").data) =
      .error ("IndexError: no such group") :=
  ⟨rfl, ⟨_, rfl⟩, rfl⟩

/-! ## Facts about the date-triple matcher -/

theorem matchDigits_spec : ∀ {n : Nat} {l ds r : List Char},
    matchDigits n l = some (ds, r) → ds.length = n ∧ ∀ c ∈ ds, pyIsDigit c = true := by
  intro n
  induction n with
  | zero =>
    intro l ds r h
    unfold matchDigits at h
    cases h
    exact ⟨rfl, by simp⟩
  | succ n ih =>
    intro l ds r h
    cases l with
    | nil => simp [matchDigits] at h
    | cons c cs =>
      unfold matchDigits at h
      split_ifs at h with hd
      cases hm : matchDigits n cs with
      | none =>
        rw [hm] at h
        simp at h
      | some p =>
        rw [hm, Option.map_some'] at h
        rcases p with ⟨ds', r'⟩
        cases h
        have hih := ih hm
        refine ⟨by simp [hih.1], ?_⟩
        intro x hx
        rcases List.mem_cons.mp hx with h1 | h1
        · rw [h1]; exact hd
        · exact hih.2 x h1

theorem matchYear_spec {l y : List Char} (h : matchYear l = some y) :
    (∀ c ∈ y, pyIsDigit c = true) ∧ (y.length = 2 ∨ y.length = 3 ∨ y.length = 4) := by
  unfold matchYear at h
  cases h4 : matchDigits 4 l with
  | some p =>
    rw [h4] at h
    cases h
    have hs := matchDigits_spec h4
    exact ⟨hs.2, Or.inr (Or.inr hs.1)⟩
  | none =>
    rw [h4] at h
    cases h3 : matchDigits 3 l with
    | some p =>
      rw [h3] at h
      cases h
      have hs := matchDigits_spec h3
      exact ⟨hs.2, Or.inr (Or.inl hs.1)⟩
    | none =>
      rw [h3] at h
      rcases Option.map_eq_some'.mp h with ⟨p, hp, hy⟩
      have hs := matchDigits_spec (by rw [hp] : matchDigits 2 l = some (p.1, p.2))
      rw [← hy]
      exact ⟨hs.2, Or.inl hs.1⟩

theorem matchDayYear_spec {n : Nat} {l d y : List Char}
    (h : matchDayYear n l = some (d, y)) :
    d.length = n ∧ (∀ c ∈ d, pyIsDigit c = true) ∧
    (∀ c ∈ y, pyIsDigit c = true) ∧ (y.length = 2 ∨ y.length = 3 ∨ y.length = 4) := by
  unfold matchDayYear at h
  rcases Option.bind_eq_some.mp h with ⟨p, hp, h2⟩
  rcases Option.bind_eq_some.mp h2 with ⟨r2, hr2, h3⟩
  rcases Option.bind_eq_some.mp h3 with ⟨yy, hyy, h4⟩
  cases h4
  have hd := matchDigits_spec (by rw [hp] : matchDigits n l = some (p.1, p.2))
  have hy := matchYear_spec hyy
  exact ⟨hd.1, hd.2, hy.1, hy.2⟩

theorem matchMonthDayYear_spec {n : Nat} {l m d y : List Char}
    (h : matchMonthDayYear n l = some (m, d, y)) :
    m.length = n ∧ (∀ c ∈ m, pyIsDigit c = true) ∧
    (d.length = 2 ∨ d.length = 1) ∧ (∀ c ∈ d, pyIsDigit c = true) ∧
    (∀ c ∈ y, pyIsDigit c = true) ∧ (y.length = 2 ∨ y.length = 3 ∨ y.length = 4) := by
  unfold matchMonthDayYear at h
  rcases Option.bind_eq_some.mp h with ⟨p, hp, h2⟩
  rcases Option.bind_eq_some.mp h2 with ⟨r2, hr2, h3⟩
  rcases Option.bind_eq_some.mp h3 with ⟨dy, hdy, h4⟩
  cases h4
  have hm := matchDigits_spec (by rw [hp] : matchDigits n l = some (p.1, p.2))
  rcases dy with ⟨dd, yy⟩
  have hdys : dd.length = 2 ∨ dd.length = 1 := by
    cases h2d : matchDayYear 2 r2 with
    | some q =>
      have : q = (dd, yy) := by
        have := hdy
        simp [Option.orElse, h2d] at this
        exact this
      exact Or.inl (matchDayYear_spec (by rw [← this]; exact h2d)).1
    | none =>
      have h1d : matchDayYear 1 r2 = some (dd, yy) := by
        have := hdy
        simp [Option.orElse, h2d] at this
        exact this
      exact Or.inr (matchDayYear_spec h1d).1
  have hrest : (∀ c ∈ dd, pyIsDigit c = true) ∧
      (∀ c ∈ yy, pyIsDigit c = true) ∧ (yy.length = 2 ∨ yy.length = 3 ∨ yy.length = 4) := by
    cases h2d : matchDayYear 2 r2 with
    | some q =>
      have hq : q = (dd, yy) := by
        have := hdy
        simp [Option.orElse, h2d] at this
        exact this
      have := matchDayYear_spec (by rw [← hq]; exact h2d)
      exact ⟨this.2.1, this.2.2⟩
    | none =>
      have h1d : matchDayYear 1 r2 = some (dd, yy) := by
        have := hdy
        simp [Option.orElse, h2d] at this
        exact this
      have := matchDayYear_spec h1d
      exact ⟨this.2.1, this.2.2⟩
  exact ⟨hm.1, hm.2, hdys, hrest.1, hrest.2.1, hrest.2.2⟩

theorem matchTripleAt_spec {l m d y : List Char}
    (h : matchTripleAt l = some (m, d, y)) :
    (m.length = 2 ∨ m.length = 1) ∧ (∀ c ∈ m, pyIsDigit c = true) ∧
    (d.length = 2 ∨ d.length = 1) ∧ (∀ c ∈ d, pyIsDigit c = true) ∧
    (∀ c ∈ y, pyIsDigit c = true) ∧ (y.length = 2 ∨ y.length = 3 ∨ y.length = 4) := by
  unfold matchTripleAt at h
  cases h2 : matchMonthDayYear 2 l with
  | some q =>
    have hq : q = (m, d, y) := by
      have := h
      simp [Option.orElse, h2] at this
      exact this
    have hs := matchMonthDayYear_spec (by rw [← hq]; exact h2)
    exact ⟨Or.inl hs.1, hs.2.1, hs.2.2.1, hs.2.2.2.1, hs.2.2.2.2⟩
  | none =>
    have h1 : matchMonthDayYear 1 l = some (m, d, y) := by
      have := h
      simp [Option.orElse, h2] at this
      exact this
    have hs := matchMonthDayYear_spec h1
    exact ⟨Or.inr hs.1, hs.2.1, hs.2.2.1, hs.2.2.2.1, hs.2.2.2.2⟩

theorem dateSearch_spec : ∀ {l m d y : List Char}, dateSearch l = some (m, d, y) →
    (m.length = 2 ∨ m.length = 1) ∧ (∀ c ∈ m, pyIsDigit c = true) ∧
    (d.length = 2 ∨ d.length = 1) ∧ (∀ c ∈ d, pyIsDigit c = true) ∧
    (∀ c ∈ y, pyIsDigit c = true) ∧ (y.length = 2 ∨ y.length = 3 ∨ y.length = 4) := by
  intro l
  induction l with
  | nil =>
    intro m d y h
    rw [show dateSearch [] = none from rfl] at h
    cases h
  | cons a as ih =>
    intro m d y h
    unfold dateSearch at h
    cases hta : matchTripleAt (a :: as) with
    | some q =>
      have hq : q = (m, d, y) := by
        have := h
        simp [Option.orElse, hta] at this
        exact this
      exact matchTripleAt_spec (by rw [← hq]; exact hta)
    | none =>
      have h2 : dateSearch as = some (m, d, y) := by
        have := h
        simp [Option.orElse, hta] at this
        exact this
      exact ih h2

/-! ## Facts about words, join and capitalization -/

theorem getLast?_append_right {l l' : List Char} (h : l' ≠ []) :
    (l ++ l').getLast? = l'.getLast? := by
  cases l' with
  | nil => exact absurd rfl h
  | cons a as =>
    rw [List.getLast?_append]
    rw [List.getLast?_eq_getLast (a :: as) (by simp)]
    rfl

theorem pyWordsAux_spec : ∀ (l acc : List Char), (∀ c ∈ acc, isPySpace c = false) →
    ∀ w ∈ pyWordsAux acc l, w ≠ [] ∧ ∀ c ∈ w, isPySpace c = false := by
  intro l
  induction l with
  | nil =>
    intro acc hacc w hw
    unfold pyWordsAux at hw
    split_ifs at hw with hae
    · simp at hw
    · simp at hw
      subst hw
      refine ⟨by simp [hae], ?_⟩
      intro c hc
      exact hacc c (List.mem_reverse.mp hc)
  | cons c cs ih =>
    intro acc hacc w hw
    unfold pyWordsAux at hw
    split_ifs at hw with hsp hae
    · exact ih [] (by simp) w hw
    · rcases List.mem_cons.mp hw with h | h
      · subst h
        refine ⟨by simp [hae], ?_⟩
        intro x hx
        exact hacc x (List.mem_reverse.mp hx)
      · exact ih [] (by simp) w h
    · refine ih (c :: acc) ?_ w hw
      intro x hx
      rcases List.mem_cons.mp hx with h | h
      · rw [h]
        simpa using hsp
      · exact hacc x h

theorem joinWords_ne_nil : ∀ {ws : List (List Char)}, (∀ w ∈ ws, w ≠ []) →
    ws ≠ [] → joinWords ws ≠ [] := by
  intro ws
  match ws with
  | [] => intro _ h; exact absurd rfl h
  | [w] => intro h _; exact h w (List.mem_cons_self _ _)
  | w :: v :: vs =>
    intro h _
    show w ++ ' ' :: joinWords (v :: vs) ≠ []
    simp

theorem head?_mem : ∀ {l : List Char} {c : Char}, l.head? = some c → c ∈ l := by
  intro l c h
  cases l with
  | nil => simp at h
  | cons a as =>
    simp at h
    subst h
    exact List.mem_cons_self _ _

theorem joinWords_head?_nospace : ∀ {ws : List (List Char)},
    (∀ w ∈ ws, w ≠ [] ∧ ∀ c ∈ w, isPySpace c = false) →
    ∀ c, (joinWords ws).head? = some c → isPySpace c = false := by
  intro ws
  match ws with
  | [] => intro _ c hc; simp [joinWords] at hc
  | [w] =>
    intro h c hc
    exact (h w (List.mem_cons_self _ _)).2 c (head?_mem hc)
  | w :: v :: vs =>
    intro h c hc
    rw [show joinWords (w :: v :: vs) = w ++ ' ' :: joinWords (v :: vs) from rfl,
      List.head?_append] at hc
    have hwprop := h w (List.mem_cons_self _ _)
    cases hw : w with
    | nil => exact absurd hw hwprop.1
    | cons a as =>
      rw [hw] at hc
      simp at hc
      rw [← hc]
      exact hwprop.2 a (by rw [hw]; exact List.mem_cons_self _ _)

theorem joinWords_getLast?_nospace : ∀ {ws : List (List Char)},
    (∀ w ∈ ws, w ≠ [] ∧ ∀ c ∈ w, isPySpace c = false) →
    ∀ c, (joinWords ws).getLast? = some c → isPySpace c = false := by
  intro ws
  induction ws with
  | nil => intro _ c hc; simp [joinWords] at hc
  | cons w ws ih =>
    intro h c hc
    cases ws with
    | nil =>
      have hcm : c ∈ w := mem_of_getLast?_eq_some hc
      exact (h w (List.mem_cons_self _ _)).2 c hcm
    | cons v vs =>
      rw [show joinWords (w :: v :: vs) = w ++ ' ' :: joinWords (v :: vs) from rfl] at hc
      rw [getLast?_append_right (by simp)] at hc
      have hne : joinWords (v :: vs) ≠ [] :=
        joinWords_ne_nil (fun x hx => (h x (List.mem_cons_of_mem _ hx)).1) (by simp)
      cases hj : joinWords (v :: vs) with
      | nil => exact absurd hj hne
      | cons a as =>
        rw [hj, List.getLast?_cons_cons] at hc
        exact ih (fun x hx => h x (List.mem_cons_of_mem _ hx)) c (by rw [hj]; exact hc)

theorem pyStrip_joinWords_capitalized (v1 : List Char) :
    pyStrip (joinWords ((pyWords v1).map pyCapitalize)) =
      joinWords ((pyWords v1).map pyCapitalize) := by
  have hws : ∀ w ∈ (pyWords v1).map pyCapitalize,
      w ≠ [] ∧ ∀ c ∈ w, isPySpace c = false := by
    intro w hw
    rcases List.mem_map.mp hw with ⟨w0, hw0, hmap⟩
    have hspec := pyWordsAux_spec v1 [] (by simp) w0 hw0
    subst hmap
    cases hw0c : w0 with
    | nil => exact absurd hw0c hspec.1
    | cons a as =>
      subst hw0c
      refine ⟨by simp [pyCapitalize], ?_⟩
      intro c hc
      unfold pyCapitalize at hc
      rcases List.mem_cons.mp hc with h | h
      · rw [h]
        exact isPySpace_upperChar (hspec.2 a (List.mem_cons_self _ _))
      · rcases List.mem_map.mp h with ⟨d, hd, hde⟩
        rw [← hde]
        exact isPySpace_lowerChar (hspec.2 d (List.mem_cons_of_mem _ hd))
  exact pyStrip_eq_self (fun c hc => joinWords_head?_nospace hws c hc)
    (fun c hc => joinWords_getLast?_nospace hws c hc)

theorem pyStrip_dateFormat {m d y2 : List Char}
    (hm : ∀ c ∈ m, pyIsDigit c = true)
    (hd : ∀ c ∈ d, pyIsDigit c = true)
    (hy : ∀ c ∈ y2, isPySpace c = false) :
    pyStrip (pyZfill2 m ++ '/' :: pyZfill2 d ++ '/' :: y2) =
      pyZfill2 m ++ '/' :: pyZfill2 d ++ '/' :: y2 := by
  apply pyStrip_eq_self_of_no_space
  intro c hc
  have hzf : ∀ (w : List Char), (∀ x ∈ w, pyIsDigit x = true) →
      ∀ x ∈ pyZfill2 w, isPySpace x = false := by
    intro w hw x hx
    unfold pyZfill2 at hx
    rcases List.mem_append.mp hx with h | h
    · rw [(List.mem_replicate.mp h).2]
      decide
    · exact isPySpace_false_of_pyIsDigit (hw x h)
  rcases List.mem_append.mp hc with h | h
  · rcases List.mem_append.mp h with ha | hb
    · exact hzf m hm c ha
    · rcases List.mem_cons.mp hb with h2 | h2
      · rw [h2]; decide
      · exact hzf d hd c h2
  · rcases List.mem_cons.mp h with h2 | h2
    · rw [h2]; decide
    · exact hy c h2

/-- Every value produced by the per-field normalization of
`_clean_extracted_fields` is already trimmed. -/
theorem cleanFieldValue_strip_fixed (key : String) (v : List Char) :
    pyStrip (cleanFieldValue key v) = cleanFieldValue key v := by
  simp only [cleanFieldValue]
  split_ifs with h1 hph hlen hnm
  · -- date_of_birth / expiry_date
    cases hds : dateSearch (pyStrip (noiseStrip v)) with
    | none =>
      simp only [hds]
      exact pyStrip_pyStrip _
    | some t =>
      rcases t with ⟨m, d, y⟩
      simp only [hds]
      have hspec := dateSearch_spec hds
      have hy2 : ∀ c ∈ (if y.length = 2 then
          (if digitsToNat y < 50 then '2' :: '0' :: y else '1' :: '9' :: y) else y),
          isPySpace c = false := by
        have hyd := hspec.2.2.2.2.1
        split_ifs with hl hv
        · intro c hc
          rcases List.mem_cons.mp hc with hcc | hcc
          · rw [hcc]; decide
          · rcases List.mem_cons.mp hcc with hcc2 | hcc2
            · rw [hcc2]; decide
            · exact isPySpace_false_of_pyIsDigit (hyd c hcc2)
        · intro c hc
          rcases List.mem_cons.mp hc with hcc | hcc
          · rw [hcc]; decide
          · rcases List.mem_cons.mp hcc with hcc2 | hcc2
            · rw [hcc2]; decide
            · exact isPySpace_false_of_pyIsDigit (hyd c hcc2)
        · intro c hc
          exact isPySpace_false_of_pyIsDigit (hyd c hc)
      exact pyStrip_dateFormat hspec.2.1 hspec.2.2.2.1 hy2
  · -- phone with exactly 10 digits
    · have hlen6 : ((digitsOf (pyStrip (noiseStrip v))).drop 6).length = 4 := by
        rw [List.length_drop, hlen]
      have hne6 : (digitsOf (pyStrip (noiseStrip v))).drop 6 ≠ [] := by
        intro he
        rw [he] at hlen6
        simp at hlen6
      have hform : '(' :: (digitsOf (pyStrip (noiseStrip v))).take 3 ++ ')' :: ' ' ::
            (((digitsOf (pyStrip (noiseStrip v))).drop 3).take 3 ++
              '-' :: (digitsOf (pyStrip (noiseStrip v))).drop 6)
          = ('(' :: (digitsOf (pyStrip (noiseStrip v))).take 3 ++ [')', ' '] ++
              ((digitsOf (pyStrip (noiseStrip v))).drop 3).take 3 ++ ['-']) ++
            (digitsOf (pyStrip (noiseStrip v))).drop 6 := by
        simp
      apply pyStrip_eq_self
      · intro c hc
        simp at hc
        rw [← hc]
        decide
      · intro c hc
        rw [hform, getLast?_append_right hne6] at hc
        have hcm : c ∈ (digitsOf (pyStrip (noiseStrip v))).drop 6 :=
          mem_of_getLast?_eq_some hc
        have hcd : c ∈ digitsOf (pyStrip (noiseStrip v)) := List.drop_subset _ _ hcm
        exact isPySpace_false_of_pyIsDigit (List.mem_filter.mp hcd).2
  · -- phone with another digit count
    exact pyStrip_pyStrip _
  · -- name
    exact pyStrip_joinWords_capitalized _
  · -- all other fields
    exact pyStrip_pyStrip _

/-! ## C6 and C7 -/

/-- C6: every field name present in the final extracted-field map has a
value whose trimmed form is strictly longer than 2 characters; shorter
values are omitted from the map. -/
theorem extract_fields_nontrivial (search : SearchFn) (text : List Char)
    (k : String) (v : List Char)
    (h : (k, v) ∈ extract_structured_fields search text) :
    2 < (pyStrip v).length := by
  unfold extract_structured_fields at h
  split_ifs at h with hemp
  · simp at h
  · unfold clean_extracted_fields at h
    rcases List.mem_filterMap.mp h with ⟨kv0, hkv0, hf⟩
    by_cases hc1 : kv0.2 ≠ [] ∧ 0 < (pyStrip kv0.2).length
    · rw [if_pos hc1] at hf
      by_cases hc2 : 2 < (cleanFieldValue kv0.1 kv0.2).length
      · rw [if_pos hc2] at hf
        cases hf
        rw [cleanFieldValue_strip_fixed]
        exact hc2
      · rw [if_neg hc2] at hf
        cases hf
    · rw [if_neg hc1] at hf
      cases hf

/-- A stub regex engine for the `name` field: its first pattern captures
`"hello world"`; all other patterns fail. -/
def nameStubSearch : SearchFn := fun p _ =>
  if p == "name[:\\s]+([a-zA-Z\\s,]+)" then some (("hello world").data) else none

/-- Witness for C6: the map extracted by the stub engine contains
`name ↦ "Hello World"`, whose trimmed length exceeds 2. -/
theorem extract_fields_nontrivial_witness :
    2 < (pyStrip (("Hello World").data)).length :=
  extract_fields_nontrivial nameStubSearch (("x").data) ("name")
    (("Hello World").data) (by decide)

theorem lookup_extractRawFieldsOn : ∀ {rules : List FieldRule},
    (rules.map (fun r => r.name)).Nodup → ∀ {fr : FieldRule}, fr ∈ rules →
    ∀ (search : SearchFn) (t : List Char),
    List.lookup fr.name (extractRawFieldsOn rules search t) =
      (firstPatternMatch search t fr.patterns).map (fun g => fieldPost fr.name g) := by
  intro rules
  induction rules with
  | nil => intro _ fr hfr; simp at hfr
  | cons r rs ih =>
    intro hnd fr hfr search t
    have hnd' : (r.name ∉ rs.map (fun x => x.name)) ∧
        (rs.map (fun x => x.name)).Nodup := by
      rw [List.map_cons, List.nodup_cons] at hnd
      exact hnd
    unfold extractRawFieldsOn
    rw [List.filterMap_cons]
    rcases List.mem_cons.mp hfr with h | h
    · subst h
      cases hfm : firstPatternMatch search t fr.patterns with
      | none =>
        simp only [hfm, Option.map_none']
        apply lookup_eq_none_of_not_mem
        intro e he
        rcases List.mem_filterMap.mp he with ⟨r', hr', hr'eq⟩
        rcases Option.map_eq_some'.mp hr'eq with ⟨g, _, hge⟩
        rw [← hge]
        intro hname
        exact hnd'.1 (by rw [← hname]; exact List.mem_map.mpr ⟨r', hr', rfl⟩)
      | some g =>
        simp only [hfm, Option.map_some']
        simp [List.lookup]
    · have hne : r.name ≠ fr.name := fun heq =>
        hnd'.1 (by rw [heq]; exact List.mem_map.mpr ⟨fr, h, rfl⟩)
      have hres := ih hnd'.2 h search t
      unfold extractRawFieldsOn at hres
      cases hfm : firstPatternMatch search t r.patterns with
      | none =>
        simp only [hfm, Option.map_none']
        exact hres
      | some g =>
        simp only [hfm, Option.map_some']
        rw [show List.lookup fr.name
            ((r.name, fieldPost r.name g) ::
              rs.filterMap (fun fr' => (firstPatternMatch search t fr'.patterns).map
                (fun g' => (fr'.name, fieldPost fr'.name g')))) =
            List.lookup fr.name
              (rs.filterMap (fun fr' => (firstPatternMatch search t fr'.patterns).map
                (fun g' => (fr'.name, fieldPost fr'.name g')))) from by
          simp [List.lookup, beq_eq_false_iff_ne.mpr (Ne.symm hne)]]
        exact hres

/-- C7 amended theorem: every field rule is evaluated independently of the
other rules; within a field the patterns are tried in declared order and the
first match wins; the raw value is the first capturing group, trimmed and
whitespace-collapsed — and additionally title-cased for the `name` field;
a field with no matching pattern is absent from the raw map. -/
theorem extract_fields_cascade (search : SearchFn) (t : List Char)
    (fr : FieldRule) (hmem : fr ∈ field_patterns) :
    List.lookup fr.name (extractRawFields search t) =
      (firstPatternMatch search t fr.patterns).map
        (fun g => if fr.name = "name" then pyTitle (collapseWS (pyStrip g))
          else collapseWS (pyStrip g)) := by
  unfold extractRawFields
  rw [lookup_extractRawFieldsOn (by decide) hmem search t]
  rfl

/-- C7 counterexample: for the `name` field the recorded raw value is NOT
the trimmed whitespace-collapsed first capturing group — the code
additionally title-cases it (`"hello world"` is recorded as
`"Hello World"`). -/
theorem extract_fields_cascade_counterexample :
    firstPatternMatch nameStubSearch (("x").data)
      ["name[:\\s]+([a-zA-Z\\s,]+)", "full\\s+name[:\\s]+([a-zA-Z\\s,]+)",
       "^([A-Z][a-zA-Z]+\\s+[A-Z][a-zA-Z]+)"] = some (("hello world").data) ∧
    List.lookup ("name") (extractRawFields nameStubSearch (("x").data)) =
      some (("Hello World").data) ∧
    ("Hello World").data ≠ collapseWS (pyStrip (("hello world").data)) := by
  refine ⟨by decide, by decide, by decide⟩

/-- Witness for C7 at the stub engine: the `name` entry of the raw map is
exactly the title-cased, collapsed, trimmed first capture. -/
theorem extract_fields_cascade_witness :
    List.lookup ("name") (extractRawFields nameStubSearch (("x").data)) =
      some (pyTitle (collapseWS (pyStrip (("hello world").data)))) := by
  have h := extract_fields_cascade nameStubSearch (("x").data)
    ⟨"name", ["name[:\\s]+([a-zA-Z\\s,]+)", "full\\s+name[:\\s]+([a-zA-Z\\s,]+)",
      "^([A-Z][a-zA-Z]+\\s+[A-Z][a-zA-Z]+)"]⟩ (by decide)
  rw [h]
  decide

/-! ## C5 and C8 -/

theorem digitsToNat_pivot20 {y : List Char} (h : y.length = 2) :
    digitsToNat ('2' :: '0' :: y) = 2000 + digitsToNat y ∧
    digitsToNat ('1' :: '9' :: y) = 1900 + digitsToNat y := by
  rcases List.length_eq_two.mp h with ⟨a, b, rfl⟩
  have h2 : ('2' : Char).toNat = 50 := rfl
  have h0 : ('0' : Char).toNat = 48 := rfl
  have h1 : ('1' : Char).toNat = 49 := rfl
  have h9 : ('9' : Char).toNat = 57 := rfl
  constructor
  · simp [digitsToNat, h2, h0]
    omega
  · simp [digitsToNat, h1, h9]
    omega

theorem pyZfill2_length {m : List Char} (h : m.length = 2 ∨ m.length = 1) :
    (pyZfill2 m).length = 2 := by
  unfold pyZfill2
  rw [List.length_append, List.length_replicate]
  omega

/-- C5 amended theorem: for `date_of_birth` and `expiry_date`, normalization
searches the (noise-stripped, trimmed) value for the leftmost greedy
digit-triple; when none is found the value passes through unchanged; when one
is found the value is replaced by zero-padded month and day (always 2 digits
each) joined by slashes to the year token, a 2-digit year being pivoted at
50 into a 4-digit year worth `2000+value` (below 50) or `1900+value`
(otherwise), while a 3- or 4-digit year token is kept as matched. -/
theorem clean_date_normalization (key : String) (v : List Char)
    (hk : key = "date_of_birth" ∨ key = "expiry_date") :
    (dateSearch (pyStrip (noiseStrip v)) = none →
      cleanFieldValue key v = pyStrip (noiseStrip v)) ∧
    (∀ m d y, dateSearch (pyStrip (noiseStrip v)) = some (m, d, y) →
      cleanFieldValue key v =
        pyZfill2 m ++ '/' :: pyZfill2 d ++ '/' ::
          (if y.length = 2 then
            (if digitsToNat y < 50 then '2' :: '0' :: y else '1' :: '9' :: y)
          else y) ∧
      (pyZfill2 m).length = 2 ∧ (pyZfill2 d).length = 2 ∧
      (y.length = 2 →
        (if digitsToNat y < 50 then '2' :: '0' :: y else '1' :: '9' :: y).length = 4 ∧
        digitsToNat (if digitsToNat y < 50 then '2' :: '0' :: y
          else '1' :: '9' :: y) =
          (if digitsToNat y < 50 then 2000 + digitsToNat y
            else 1900 + digitsToNat y))) ∧
    cleanFieldValue ("date_of_birth") (("5-21-90").data) = ("05/21/1990").data ∧
    cleanFieldValue ("expiry_date") (("5-21-08").data) = ("05/21/2008").data := by
  have hcond : (decide (key = "date_of_birth") || decide (key = "expiry_date")) = true := by
    rcases hk with h | h <;> simp [h]
  refine ⟨?_, ?_, by decide, by decide⟩
  · intro hnone
    simp only [cleanFieldValue]
    rw [if_pos hcond]
    simp only [hnone]
  · intro m d y hsome
    simp only [cleanFieldValue]
    rw [if_pos hcond]
    simp only [hsome]
    have hspec := dateSearch_spec hsome
    refine ⟨by trivial, pyZfill2_length hspec.1, pyZfill2_length hspec.2.2.1, ?_⟩
    intro hy2
    have hpv := digitsToNat_pivot20 hy2
    by_cases hlt : digitsToNat y < 50
    · rw [if_pos hlt]
      exact ⟨by simp [hy2], by rw [if_pos hlt]; exact hpv.1⟩
    · rw [if_neg hlt]
      exact ⟨by simp [hy2], by rw [if_neg hlt]; exact hpv.2⟩

/-- The two-digit slash four-digit shape `MM/DD/YYYY`. -/
def isMMDDYYYYForm (l : List Char) : Bool :=
  match l with
  | [m1, m2, s1, d1, d2, s2, y1, y2, y3, y4] =>
    pyIsDigit m1 && pyIsDigit m2 && s1 == '/' && pyIsDigit d1 && pyIsDigit d2 &&
    s2 == '/' && pyIsDigit y1 && pyIsDigit y2 && pyIsDigit y3 && pyIsDigit y4
  | _ => false

/-- C5 counterexample: the triple regex also accepts a 3-digit year token
(`"1-2-345"`), which is neither pivoted nor padded, so the normalized value
`"01/02/345"` does not have the claimed `MM/DD/YYYY` form. -/
theorem clean_date_normalization_counterexample :
    (dateSearch (pyStrip (noiseStrip (("1-2-345").data)))).isSome = true ∧
    cleanFieldValue ("date_of_birth") (("1-2-345").data) = ("01/02/345").data ∧
    isMMDDYYYYForm (cleanFieldValue ("date_of_birth") (("1-2-345").data)) = false := by
  refine ⟨by decide, by decide, by decide⟩

/-- Witness for C5: the spec's own example `"5-21-90"` normalizes to
`"05/21/1990"`. -/
theorem clean_date_normalization_witness :
    cleanFieldValue ("date_of_birth") (("5-21-90").data) = ("05/21/1990").data :=
  (clean_date_normalization ("date_of_birth") (("5-21-90").data) (Or.inl rfl)).2.2.1

theorem digitsOf_noiseStrip (v : List Char) : digitsOf (noiseStrip v) = digitsOf v := by
  unfold digitsOf noiseStrip
  rw [List.filter_filter]
  apply List.filter_congr
  intro c _
  cases hd : pyIsDigit c
  · simp
  · simp [isNoiseChar_false_of_pyIsDigit hd]

theorem digitsOf_dropWhile_space (l : List Char) :
    digitsOf (l.dropWhile isPySpace) = digitsOf l := by
  conv_rhs => rw [← List.takeWhile_append_dropWhile (p := isPySpace) (l := l)]
  unfold digitsOf
  rw [List.filter_append]
  have h : (l.takeWhile isPySpace).filter pyIsDigit = [] := by
    rw [List.filter_eq_nil_iff]
    intro a ha hd
    have hsp := List.mem_takeWhile_imp ha
    rw [isPySpace_false_of_pyIsDigit hd] at hsp
    exact Bool.false_ne_true hsp
  rw [h, List.nil_append]

theorem digitsOf_pyStrip (l : List Char) : digitsOf (pyStrip l) = digitsOf l := by
  unfold pyStrip
  have hrev : ∀ (x : List Char), digitsOf x.reverse = (digitsOf x).reverse := by
    intro x
    unfold digitsOf
    exact List.filter_reverse _ _
  rw [hrev, digitsOf_dropWhile_space, hrev, List.reverse_reverse,
    digitsOf_dropWhile_space]

/-- C8: phone normalization strips all non-digit characters from the raw
value; with exactly 10 digits left the value is reformatted as
`(XXX) XXX-XXXX`, otherwise the noise-stripped (trimmed) value passes
through unchanged. -/
theorem clean_phone_normalization (v : List Char) :
    ((digitsOf v).length = 10 →
      cleanFieldValue ("phone") v =
        '(' :: (digitsOf v).take 3 ++ ')' :: ' ' ::
          (((digitsOf v).drop 3).take 3 ++ '-' :: (digitsOf v).drop 6)) ∧
    ((digitsOf v).length ≠ 10 →
      cleanFieldValue ("phone") v = pyStrip (noiseStrip v)) ∧
    cleanFieldValue ("phone") (("123-456-7890").data) = ("(123) 456-7890").data := by
  have hdg : digitsOf (pyStrip (noiseStrip v)) = digitsOf v := by
    rw [digitsOf_pyStrip, digitsOf_noiseStrip]
  refine ⟨?_, ?_, by decide⟩
  · intro hlen
    simp only [cleanFieldValue, hdg]
    rw [if_pos hlen]
    simp
  · intro hlen
    simp only [cleanFieldValue, hdg]
    rw [if_neg hlen]
    simp

/-- Witness for C8: a noisy raw value whose digits are `5551234567` is
reformatted to `"(555) 123-4567"`. -/
theorem clean_phone_normalization_witness :
    cleanFieldValue ("phone") (("|555@123*4567").data) = ("(555) 123-4567").data := by
  have h := (clean_phone_normalization (("|555@123*4567").data)).1 (by decide)
  rw [h]
  decide
